import Mathlib

/-!
Shallow embedding of FlowGraphLib (C++), for checking the natural-language
specification against the code.  Element type `T` is modelled as `ℚ`
(an exact stand-in for the arithmetic element types the library is
instantiated at); machine `double` literals such as `0.7` are the exact
rationals `7/10`.  Maps keyed by precision level are modelled as
association lists; all the level-indexed loops of the source are
order-independent per level, so this representation is faithful.
-/

namespace FlowGraph

/-- Association-list lookup, modelling `std::unordered_map::find`. -/
def lookupA {α : Type} (l : List (ℕ × α)) (k : ℕ) : Option α :=
  match l with
  | [] => none
  | (k', v) :: rest => if k' = k then some v else lookupA rest k

/-- Association-list update: replace the value at `k` if present,
otherwise append (`operator[]` insertion). -/
def updateA {α : Type} (l : List (ℕ × α)) (k : ℕ) (v : α) : List (ℕ × α) :=
  match l with
  | [] => [(k, v)]
  | (k', v') :: rest => if k' = k then (k, v) :: rest else (k', v') :: updateA rest k v

/-- Error kinds, from `error_state.hpp` (`enum class ErrorType`). -/
inductive ErrorType where
  | NoneE
  | ComputationError
  | PrecisionError
  | DependencyError
  | ResourceError
  | TimeoutError
  | ValidationError
deriving DecidableEq, Repr

/-- `ErrorState`: tagged error with message, optional source node and
propagation trail (`error_state.hpp`). -/
structure ErrorState where
  type : ErrorType
  message : String
  source_node : Option String := none
  propagation_path : List String := []
deriving DecidableEq, Repr

/-- `ErrorState::precision_error` followed by `set_source_node`. -/
def precisionError (msg : String) (src : String) : ErrorState :=
  { type := .PrecisionError, message := msg, source_node := some src }

/-- `ComputeResult<T>`: a value or an error (`error_state.hpp`). -/
inductive CResult where
  | val : ℚ → CResult
  | err : ErrorState → CResult
deriving DecidableEq, Repr

/-- `ComputeResult::has_error`. -/
def CResult.hasError : CResult → Bool
  | .val _ => false
  | .err _ => true

/-! ## FractalTreeNode (`fractal_tree_node.hpp`) -/

/-- `FractalTreeNode<T>` state: `absolute_values_` and `pending_updates_`
keyed by precision level; each pending entry is a `(value, weight)` pair. -/
structure FractalTreeNode where
  max_depth : ℕ
  compression_threshold : ℚ
  absolute_values : List (ℕ × ℚ) := []
  pending_updates : List (ℕ × List (ℚ × ℚ)) := []
deriving DecidableEq, Repr

namespace FractalTreeNode

/-- `merge_threshold_` (= 10): pending-list size that triggers a merge. -/
def merge_threshold : ℕ := 10

/-- C++ `std::round` (half away from zero) on an exact rational. -/
def cround (q : ℚ) : ℤ :=
  if 0 ≤ q then ⌊q + 1/2⌋ else -⌊-q + 1/2⌋

/-- `expand_value(value, from_level, to_level)` for arithmetic `T`:
round to `to-from` decimal digits via `round(v*10^d)/10^d`. -/
def expand_value (value : ℚ) (from_level to_level : ℕ) : ℚ :=
  let scale : ℚ := (10 : ℚ) ^ (to_level - from_level)
  (cround (value * scale) : ℚ) / scale

/-- `difference(a, b)` for arithmetic `T`: `|a - b|`. -/
def difference (a b : ℚ) : ℚ := |a - b|

/-- `merge_level(level)`: weighted-average the pending updates at `level`
into the absolute value (exponential moving average `0.7/0.3` when an
absolute value already exists), then clear the pending list.  The fold
mirrors the incremental loop of the source. -/
def mergeStep (acc u : ℚ × ℚ) : ℚ × ℚ :=
  ((acc.1 * acc.2 + u.1 * u.2) / (acc.2 + u.2), acc.2 + u.2)

/-- Body of `merge_level` (see the comment above `mergeStep`). -/
def merge_level (t : FractalTreeNode) (level : ℕ) : FractalTreeNode :=
  match lookupA t.pending_updates level with
  | none => t
  | some [] => t
  | some (u0 :: rest) =>
    let merged := (rest.foldl mergeStep (u0.1, u0.2)).1
    let absolute' :=
      match lookupA t.absolute_values level with
      | some a => updateA t.absolute_values level (a * (7/10) + merged * (3/10))
      | none => updateA t.absolute_values level merged
    { t with absolute_values := absolute', pending_updates := updateA t.pending_updates level [] }

/-- `store(value, precision_level)`: clamp the level to `max_depth`,
append `(value, 1.0)` to the pending list, and merge the level when the
pending list reaches `merge_threshold_`. -/
def store (t : FractalTreeNode) (value : ℚ) (precision_level : ℕ) : FractalTreeNode :=
  let level := if precision_level > t.max_depth then t.max_depth else precision_level
  let updates := ((lookupA t.pending_updates level).getD []) ++ [(value, 1)]
  let t' := { t with pending_updates := updateA t.pending_updates level updates }
  if updates.length ≥ merge_threshold then t'.merge_level level else t'

/-- The downward search of `get`: examine `k-1, k-2, …, 0` and expand the
first absolute value found up to the requested level. -/
def get_down (t : FractalTreeNode) (level : ℕ) : ℕ → Option ℚ
  | 0 => none
  | k + 1 =>
    match lookupA t.absolute_values k with
    | some v => some (expand_value v k level)
    | none => get_down t level k

/-- `get(precision_level)`: clamp the level; return the absolute value at
the level if present, otherwise the expansion of the closest lower
populated level; `none` if no level at or below is populated. -/
def get (t : FractalTreeNode) (precision_level : ℕ) : Option ℚ :=
  let level := if precision_level > t.max_depth then t.max_depth else precision_level
  match lookupA t.absolute_values level with
  | some v => some v
  | none => get_down t level level

/-- `compress_tree()`: remove every absolute level `L ≥ 1` whose value is
within `compression_threshold` of the value at `L-1` (decisions are made
against the pre-state; removals happen afterwards, as in the source). -/
def compress_tree (t : FractalTreeNode) : FractalTreeNode :=
  let keep : ℕ × ℚ → Bool := fun p =>
    match p.1 with
    | 0 => true
    | l + 1 =>
      match lookupA t.absolute_values l with
      | some w => decide (difference p.2 w ≥ t.compression_threshold)
      | none => true
  { t with absolute_values := t.absolute_values.filter keep }

/-- `merge_all()`: merge every pending level, then compress the tree. -/
def merge_all (t : FractalTreeNode) : FractalTreeNode :=
  let levels := t.pending_updates.map (·.1)
  (levels.foldl merge_level t).compress_tree

end FractalTreeNode

/-! ## Node (`node.hpp` / `impl/node_impl.hpp`) -/

/-- `MERGE_INTERVAL` (= 10) from `Node::should_merge_updates`. -/
def MERGE_INTERVAL : ℕ := 10

/-- The per-node state of `Node<T>`: name, fractal store, precision
window, current level, and the monotone computation counter.  Completion
callbacks are not stored as functions; `compute` instead reports the
result they are invoked with (see `ComputeOutcome.fired`). -/
structure NodeState where
  name : String
  value_storage : FractalTreeNode
  current_precision_level : ℕ := 0
  min_precision_level : ℕ := 0
  max_precision_level : ℕ
  computation_count : ℕ := 0
deriving DecidableEq, Repr

/-- `Node` constructor: `current_level = 0`, `min_level = 0`,
`max_level = max_precision_depth`, fresh store. -/
def mkNode (name : String) (max_precision_depth : ℕ := 8)
    (compression_threshold : ℚ := 1/1000) : NodeState :=
  { name := name
    value_storage := { max_depth := max_precision_depth
                       compression_threshold := compression_threshold }
    max_precision_level := max_precision_depth }

/-- `Node::set_precision_range(min, max)`: `Validation` failure when
`max` exceeds the store's `max_depth` or `min > max`. -/
def setPrecisionRange (st : NodeState) (min_level max_level : ℕ) :
    Except String NodeState :=
  if max_level > st.value_storage.max_depth then
    .error "Maximum precision level exceeds storage capacity"
  else if min_level > max_level then
    .error "Minimum precision level cannot exceed maximum level"
  else
    .ok { st with min_precision_level := min_level, max_precision_level := max_level }

/-- `Node::adjust_precision(target)`: update `current_level` only when
the target lies within `[min_level, max_level]`. -/
def adjustPrecision (st : NodeState) (target_level : ℕ) : NodeState :=
  if target_level ≥ st.min_precision_level ∧ target_level ≤ st.max_precision_level then
    { st with current_precision_level := target_level }
  else
    st

/-- `Node::merge_updates()`: forward to the store's `merge_all`. -/
def mergeUpdates (st : NodeState) : NodeState :=
  { st with value_storage := st.value_storage.merge_all }

/-- Everything observable about one `Node::compute` call: the resolved
`ComputeResult`, the node state after the call, whether `compute_impl`
was invoked, and the result the completion callbacks were invoked with
(`none` when no callback fired). -/
structure ComputeOutcome where
  result : CResult
  state : NodeState
  implCalled : Bool
  fired : Option CResult
deriving DecidableEq, Repr

/-- `Node::compute(precision_level)` from `impl/node_impl.hpp`.
`parentErr` is the parent graph's error-table entry for this node
(`parent_graph_->get_node_error(name_)`, `none` when absent or when the
node has no parent graph); `impl` is the subclass `compute_impl`,
assumed not to throw (the `catch` branch is not exercised here). -/
def Node.compute (st : NodeState) (parentErr : Option ErrorState)
    (impl : ℕ → CResult) (precision_level : ℕ) : ComputeOutcome :=
  match parentErr with
  | some e => ⟨.err e, st, false, none⟩
  | none =>
    if precision_level > st.max_precision_level then
      let e := precisionError
        "Requested precision level exceeds maximum supported level" st.name
      ⟨.err e, st, false, none⟩
    else
      let st := { st with current_precision_level := precision_level }
      match st.value_storage.get precision_level with
      | some cached => ⟨.val cached, st, false, none⟩
      | none =>
        match impl precision_level with
        | .err e =>
          let e' :=
            if e.source_node = none ∨ e.source_node ≠ some st.name then
              { e with propagation_path := e.propagation_path ++ [st.name] }
            else
              { e with source_node := some st.name }
          ⟨.err e', st, true, none⟩
        | .val v =>
          let st := { st with value_storage := st.value_storage.store v precision_level }
          let fired := some (CResult.val v)
          let count := st.computation_count + 1
          let st := { st with computation_count := count }
          let st :=
            if count % MERGE_INTERVAL = 0 then
              { st with value_storage := st.value_storage.merge_all }
            else st
          ⟨.val v, st, true, fired⟩

/-- String-keyed association-list lookup (`std::unordered_map::find`). -/
def lookupS {α : Type} (l : List (String × α)) (k : String) : Option α :=
  match l with
  | [] => none
  | (k', v) :: rest => if k' = k then some v else lookupS rest k

/-- String-keyed association-list update (`map[k] = v`): replace in
place if present, otherwise append. -/
def updateS {α : Type} (l : List (String × α)) (k : String) (v : α) : List (String × α) :=
  match l with
  | [] => [(k, v)]
  | (k', v') :: rest => if k' = k then (k, v) :: rest else (k', v') :: updateS rest k v

/-- String-keyed association-list erase (`map.erase(k)`). -/
def eraseS {α : Type} (l : List (String × α)) (k : String) : List (String × α) :=
  l.filter (fun p => p.1 ≠ k)

/-- The internal completion callback registered by `Graph::add_node`
(`error_state.hpp`): on an error result, write the error into the
graph's error table under the error's source node (empty string when the
source is unset); on a success result, leave the table unchanged. -/
def internalCallback (result : CResult) (table : List (String × ErrorState)) :
    List (String × ErrorState) :=
  match result with
  | .val _ => table
  | .err e => updateS table (e.source_node.getD "") e

/-! ## Cache subsystem (`cache_policy.hpp`, `graph_cache.hpp`) -/

/-- `LRUCachePolicy<T>` state: the capacity and `access_list_`
(front = most recently used).  `item_map_` is an index into the list and
carries no extra information, so it is not modelled separately. -/
structure LRUState (α : Type) where
  capacity : ℕ
  access_list : List α := []
deriving DecidableEq, Repr

namespace LRUState

/-- `should_cache`: room without eviction. -/
def should_cache {α : Type} (s : LRUState α) : Bool :=
  s.access_list.length < s.capacity

/-- `on_access(v)`: if present, move `v` to the front of the list. -/
def on_access {α : Type} [DecidableEq α] (s : LRUState α) (v : α) : LRUState α :=
  if v ∈ s.access_list then
    { s with access_list := v :: s.access_list.erase v }
  else s

/-- `on_insert(v)`: push `v` to the front. -/
def on_insert {α : Type} (s : LRUState α) (v : α) : LRUState α :=
  { s with access_list := v :: s.access_list }

/-- `select_victim()`: pop and return the back of the list; `none`
models the `Resource` throw on an empty cache. -/
def select_victim {α : Type} [DecidableEq α] (s : LRUState α) : Option (α × LRUState α) :=
  match s.access_list.getLast? with
  | none => none
  | some victim => some (victim, { s with access_list := s.access_list.dropLast })

end LRUState

/-- `GraphCache<T>` with an LRU policy attached: the cached element set
(modelled as a duplicate-free list) plus the policy state. -/
structure LRUGraphCache (α : Type) where
  cache : List α := []
  policy : LRUState α
deriving DecidableEq, Repr

namespace LRUGraphCache

/-- `GraphCache::store(v)`: on a present value, only `on_access`; else
evict the policy's victim when `should_cache` is false, then `on_insert`
and insert.  `none` models the throw from `select_victim` on an empty
policy. -/
def store {α : Type} [DecidableEq α] (c : LRUGraphCache α) (value : α) :
    Option (LRUGraphCache α) :=
  if value ∈ c.cache then
    some { c with policy := c.policy.on_access value }
  else
    let step : Option (LRUGraphCache α) :=
      if c.policy.should_cache then some c
      else
        match c.policy.select_victim with
        | none => none
        | some (victim, p') => some { cache := c.cache.erase victim, policy := p' }
    match step with
    | none => none
    | some c' =>
      some { cache := c'.cache ++ [value], policy := c'.policy.on_insert value }

/-- `GraphCache::get(k)`: presence check plus `on_access` notification. -/
def get {α : Type} [DecidableEq α] (c : LRUGraphCache α) (key : α) :
    Option α × LRUGraphCache α :=
  if key ∈ c.cache then
    (some key, { c with policy := c.policy.on_access key })
  else
    (none, c)

end LRUGraphCache

/-! ## Graph membership and the cycle check (`graph.hpp`) -/

/-- Graph membership state: nodes and edges by identity (node names
stand in for `shared_ptr` identity; insertion order is kept, since the
source iterates containers in a fixed order per run). -/
structure GraphState where
  nodes : List String := []
  edges : List (String × String) := []
deriving DecidableEq, Repr

namespace GraphState

/-- `Graph::detect_cycle(node, visited)`: path-based DFS over the
current edge set; reports true exactly when it re-enters a node on the
current path.  `fuel` bounds the recursion depth; any fuel larger than
the number of edges plus one is enough, since a path that never repeats
a node uses each edge source at most once. -/
def detect_cycle (edges : List (String × String)) :
    ℕ → String → List String → Bool
  | 0, _, _ => true
  | fuel + 1, node, visited =>
    if node ∈ visited then true
    else
      let visited' := node :: visited
      (edges.filter (fun e => e.1 = node)).any
        (fun e => detect_cycle edges fuel e.2 visited')

/-- `Graph::has_cycle(new_edge)`: DFS from the proposed edge's head with
an empty visited set.  Note the DFS never consults `new_edge->from()`. -/
def has_cycle (g : GraphState) (new_edge : String × String) : Bool :=
  detect_cycle g.edges (g.edges.length + 2) new_edge.2 []

/-- `Graph::add_edge(e)`: insert unless `has_cycle` reports true; the
boolean records acceptance (`false` models the thrown cycle error, the
graph left unchanged). -/
def add_edge (g : GraphState) (e : String × String) : GraphState × Bool :=
  if g.has_cycle e then (g, false)
  else ({ g with edges := g.edges ++ [e] }, true)

/-- `Graph::add_node(n)`. -/
def add_node (g : GraphState) (n : String) : GraphState :=
  { g with nodes := g.nodes ++ [n] }

/-- `Graph::remove_node(n)`: drop all incident edges, then the node. -/
def remove_node (g : GraphState) (n : String) : GraphState :=
  { nodes := g.nodes.filter (fun m => m ≠ n)
    edges := g.edges.filter (fun e => e.1 ≠ n ∧ e.2 ≠ n) }

/-- `Graph::get_incoming_edges(n)`. -/
def get_incoming_edges (g : GraphState) (n : String) : List (String × String) :=
  g.edges.filter (fun e => e.2 = n)

/-- `Graph::get_outgoing_edges(n)`. -/
def get_outgoing_edges (g : GraphState) (n : String) : List (String × String) :=
  g.edges.filter (fun e => e.1 = n)

end GraphState

/-- Specification-side reachability (not from the source): `reach edges
fuel frontier target` decides whether `target` is reachable from the
frontier in at most `fuel` steps.  Used to state what the cycle check
was supposed to decide. -/
def reachN (edges : List (String × String)) : ℕ → List String → String → Bool
  | 0, frontier, target => frontier.contains target
  | fuel + 1, frontier, target =>
    frontier.contains target ||
      reachN edges fuel
        ((edges.filter (fun e => frontier.contains e.1)).map (·.2) ++ frontier) target

/-- Reachability of `b` from `a` under `edges` (path length is bounded
by the number of edges). -/
def reachable (edges : List (String × String)) (a b : String) : Bool :=
  reachN edges edges.length [a] b

/-! ## Node fusion (`optimization/node_fusion.hpp`, `fused_node.hpp`) -/

namespace GraphState

/-- `NodeFusion::build_chain`: extend the chain through nodes whose
single outgoing edge leads to a node with a single incoming edge.
Returns the updated visited set and the chain collected from `node` on.
`fuel` bounds the recursion; any value above the node count suffices. -/
def build_chain (g : GraphState) :
    ℕ → String → List String → List String × List String
  | 0, _, visited => (visited, [])
  | fuel + 1, node, visited =>
    let visited := node :: visited
    match g.get_outgoing_edges node with
    | [e] =>
      if (g.get_incoming_edges e.2).length = 1 then
        let (visited', rest) := build_chain g fuel e.2 visited
        (visited', node :: rest)
      else (visited, [node])
    | _ => (visited, [node])

/-- `NodeFusion::find_fusion_chains`: walk the node list, starting a
chain at each not-yet-visited node. -/
def find_fusion_chains (g : GraphState) : List (List String) :=
  (g.nodes.foldl
    (fun (acc : List String × List (List String)) node =>
      let (visited, chains) := acc
      if node ∈ visited then acc
      else
        let (visited', chain) := g.build_chain (g.nodes.length + 1) node visited
        (visited', chains ++ [chain]))
    ([], [])).2

/-- Name of the node created by the `FusedNode` constructor. -/
def fused_node_name : String := "fused_node"

/-- `NodeFusion::fuse_chain`: create the fused node, connect the first
node's inputs and the last node's outputs to it, then remove the chain's
nodes.  Mirrors the source exactly: `graph.add_node(fused)` is never
called. -/
def fuse_chain (g : GraphState) (chain : List String) : GraphState :=
  match chain with
  | [] => g
  | first :: rest =>
    let last := (first :: rest).getLast (by simp)
    let g := (g.get_incoming_edges first).foldl
      (fun g e => (g.add_edge (e.1, fused_node_name)).1) g
    let g := (g.get_outgoing_edges last).foldl
      (fun g e => (g.add_edge (fused_node_name, e.2)).1) g
    chain.foldl (fun g n => g.remove_node n) g

/-- `NodeFusion::optimize`: fuse every discovered chain of length ≥ 2
(chains are discovered on the original graph, fused on the evolving
one, as in the source). -/
def node_fusion_optimize (g : GraphState) : GraphState :=
  (g.find_fusion_chains).foldl
    (fun g chain => if chain.length > 1 then g.fuse_chain chain else g) g

end GraphState

/-! ## Graph executor with error table (`error_state.hpp`, `Graph final`) -/

/-- An optimization pass, abstracted to its observable graph rewrites
(the source's `OptimizationPass<T>` is an arbitrary `optimize(graph)`;
the actions here are the graph mutations passes perform). -/
inductive PassAction where
  | addNodeP (n : String)
  | removeNodeP (n : String)
deriving DecidableEq, Repr

/-- State of the error-table `Graph` variant: membership, the error
table `node_errors_`, the registered pass list, and the (policy-less)
`GraphCache` contents. -/
structure GraphE where
  nodes : List String := []
  edges : List (String × String) := []
  node_errors : List (String × ErrorState) := []
  passes : List PassAction := []
  cache : List ℚ := []
deriving DecidableEq, Repr

namespace GraphE

/-- Apply one pass's rewrite (via the graph's own operations). -/
def applyPass (p : PassAction) (g : GraphE) : GraphE :=
  match p with
  | .addNodeP n => { g with nodes := g.nodes ++ [n] }
  | .removeNodeP n =>
    { g with nodes := g.nodes.filter (fun m => m ≠ n)
             edges := g.edges.filter (fun e => e.1 ≠ n ∧ e.2 ≠ n)
             node_errors := eraseS g.node_errors n }

/-- `Graph::optimize()`: run the registered passes in registration
order. -/
def optimizeE (g : GraphE) : GraphE :=
  g.passes.foldl (fun g p => applyPass p g) g

/-- The state `execute` actually mutates: during execution the node and
edge sets, the pass list and the cache policy are read-only; only the
error table, the cache contents and the executor's visited set change. -/
structure ExecSt where
  node_errors : List (String × ErrorState)
  cache : List ℚ
  visited : List String
deriving DecidableEq, Repr

/-- `Graph::execute_node_async(node, visited)` (error-table variant),
sequentialized: `Task` uses `suspend_never` initial suspension, so every
coroutine body runs to completion at creation and the whole execution is
synchronous and depth-first in edge order.  `impls node` is the outcome
of `node->compute()` (the node-internal store and callbacks live outside
the graph state).  `fuel` bounds the recursion; recursion only visits
unvisited predecessors, so any fuel above the node count suffices. -/
def execNodeAsync (impls : String → CResult) (edges : List (String × String)) :
    ℕ → ExecSt → String → CResult × ExecSt
  | 0, st, _ =>
    (.err { type := .ResourceError, message := "recursion fuel exhausted" }, st)
  | fuel + 1, st, node =>
    let st := { st with visited := node :: st.visited }
    -- dependency tasks: created (and, eagerly, run) in edge order
    let dep := edges.foldl
      (fun (acc : List CResult × ExecSt) e =>
        if e.2 = node ∧ e.1 ∉ acc.2.visited then
          let (r, st') := execNodeAsync impls edges fuel acc.2 e.1
          (acc.1 ++ [r], st')
        else acc)
      ([], st)
    let (results, st) := dep
    -- the await loop returns on the first erroring dependency
    match results.find? (fun r => r.hasError) with
    | some (.err e0) =>
      let e1 := { e0 with propagation_path := e0.propagation_path ++ [node] }
      let e := if e1.source_node = none then { e1 with source_node := some node } else e1
      let tbl := updateS (updateS st.node_errors (e.source_node.getD node) e) node e
      (.err e, { st with node_errors := tbl })
    | some (.val _) =>
      -- unreachable: `find?`'s predicate only selects errors
      (.val 0, st)
    | none =>
      -- poisoning check: any prior error stops this node
      match st.node_errors with
      | (_, e0) :: _ =>
        let e := { e0 with propagation_path := e0.propagation_path ++ [node] }
        (.err e, { st with node_errors := updateS st.node_errors node e })
      | [] =>
        match impls node with
        | .err e0 =>
          let e := if e0.source_node = none then { e0 with source_node := some node } else e0
          let tbl := updateS (updateS st.node_errors (e.source_node.getD node) e) node e
          (.err e0, { st with node_errors := tbl })
        | .val v =>
          let st := if v ∈ st.cache then st else { st with cache := st.cache ++ [v] }
          (.val v, st)

/-- One pass of the error-propagation loop in `Graph::execute`: for
every node, copy a predecessor's recorded error (appending the node to
its propagation path) when the node has none; report whether anything
changed. -/
def propagateOnce (nodes : List String) (edges : List (String × String))
    (tbl0 : List (String × ErrorState)) : List (String × ErrorState) × Bool :=
  nodes.foldl
    (fun (acc : List (String × ErrorState) × Bool) n =>
      (edges.filter (fun e => e.2 = n)).foldl
        (fun (acc2 : List (String × ErrorState) × Bool) e =>
          let (tbl, changed) := acc2
          match lookupS tbl e.1 with
          | none => (tbl, changed)
          | some err =>
            match lookupS tbl n with
            | some _ => (tbl, changed)
            | none =>
              let pe := { err with propagation_path := err.propagation_path ++ [n] }
              (updateS tbl n pe, true))
        acc)
    (tbl0, false)

/-- The `do … while (changed)` fixed point of the propagation loop;
each changing pass records an error for at least one node that had none,
so `nodes.length + 1` rounds always reach the fixed point. -/
def propagateFix (nodes : List String) (edges : List (String × String)) :
    ℕ → List (String × ErrorState) → List (String × ErrorState)
  | 0, tbl => tbl
  | fuel + 1, tbl =>
    let (tbl', changed) := propagateOnce nodes edges tbl
    if changed then propagateFix nodes edges fuel tbl' else tbl'

/-- `Graph::execute()` (error-table variant, `error_state.hpp`):
clear the error table; schedule every source node (no incoming edges);
await the scheduled tasks, recording errors under their source; then run
the propagation fixed point.  Optimization passes are not touched. -/
def executeE (impls : String → CResult) (g : GraphE) : GraphE :=
  let st0 : ExecSt := { node_errors := [], cache := g.cache, visited := [] }
  let sources := g.nodes.filter (fun n => g.edges.all (fun e => e.2 ≠ n))
  let sched := sources.foldl
    (fun (acc : List (String × CResult) × ExecSt) n =>
      let (r, st') := execNodeAsync impls g.edges (g.nodes.length + 1) acc.2 n
      (acc.1 ++ [(n, r)], st'))
    ([], st0)
  let (pairs, st) := sched
  let tbl := pairs.foldl
    (fun tbl (p : String × CResult) =>
      match p.2 with
      | .val _ => tbl
      | .err e0 =>
        let e := if e0.source_node = none then { e0 with source_node := some p.1 } else e0
        updateS tbl (e.source_node.getD p.1) e)
    st.node_errors
  let tbl := propagateFix g.nodes g.edges (g.nodes.length + 1) tbl
  { g with node_errors := tbl, cache := st.cache }

end GraphE

/-! ## Specification-side definitions and concrete fixtures -/

/-- Weighted mean `μ = Σ wᵢ·vᵢ / Σ wᵢ` of a pending list, written the
way the specification states it (to be compared with the incremental
fold `merge_level` performs). -/
def weightedMean (us : List (ℚ × ℚ)) : ℚ :=
  (us.map (fun u => u.1 * u.2)).sum / (us.map (·.2)).sum

/-- Invoke the completion callbacks as `compute` reports them: each
registered callback — the internal one from `add_node` included — is
applied to the fired result, or to nothing when no callback fired. -/
def fireCallbacks (fired : Option CResult) (table : List (String × ErrorState)) :
    List (String × ErrorState) :=
  match fired with
  | none => table
  | some r => internalCallback r table

/-- Fixture for the fractal-merge scenario: `max_depth=4`,
`threshold=0.1`, `store(1.0,0); store(1.01,1); store(1.5,2);
merge_all()`. -/
def tC2 : FractalTreeNode :=
  let t : FractalTreeNode := { max_depth := 4, compression_threshold := 1/10 }
  (((t.store 1 0).store (101/100) 1).store (3/2) 2).merge_all

/-- Fixture: node with `set_precision_range(2, 6)` applied (the range
call succeeds on the default store depth 8). -/
def nodeC6 : NodeState :=
  match setPrecisionRange (mkNode "n") 2 6 with
  | .ok s => s
  | .error _ => mkNode "n"

/-- Fixture for the cycle-insertion scenario: edge set `{a→b, b→c}`. -/
def gC1 : GraphState :=
  { nodes := ["a", "b", "c"], edges := [("a", "b"), ("b", "c")] }

/-- Fixture for node fusion: the chain `n1 → n2` fed by two
predecessors `p1, p2` (so the chain is eligible and the fused node gets
incoming edges). -/
def gC8 : GraphState :=
  { nodes := ["p1", "p2", "n1", "n2"]
    edges := [("p1", "n1"), ("p2", "n1"), ("n1", "n2")] }

/-- Fixture for the executor: one node and one registered pass that
adds a node named `x`. -/
def gC4 : GraphE := { nodes := ["a"], passes := [.addNodeP "x"] }

/-- Oracle under which every node computes successfully. -/
def implsOk : String → CResult := fun _ => .val 0

/-- Fixture for the LRU scenario: capacity 2; insert 1, insert 2,
access 1, insert 3 (each step through `GraphCache`). -/
def cacheC7 : Option (LRUGraphCache ℤ) :=
  let c : LRUGraphCache ℤ := { policy := { capacity := 2 } }
  ((((c.store 1).bind (·.store 2)).map (fun c => (c.get 1).2)).bind (·.store 3))

/-- Fixture: a compute call whose `compute_impl` produces an error. -/
def oC3 : ComputeOutcome :=
  Node.compute (mkNode "n") none
    (fun _ => CResult.err { type := .ComputationError, message := "boom" }) 0

/-- Fixture: a fractal store with one pending level holding the
updates `[(1,1), (2,1)]` and no absolute values. -/
def tC9 : FractalTreeNode :=
  { max_depth := 4, compression_threshold := 1/10
    pending_updates := [(0, [(1, 1), (2, 1)])] }

/-- Fixture: a node whose fractal store already holds `5` at level 0. -/
def nodeC10 : NodeState :=
  { mkNode "w" with
    value_storage := { max_depth := 8, compression_threshold := 1/1000
                       absolute_values := [(0, 5)] } }

/-! ## Helper lemmas -/

theorem lookupA_updateA_self {α : Type} (l : List (ℕ × α)) (k : ℕ) (v : α) :
    lookupA (updateA l k v) k = some v := by
  induction l with
  | nil => simp [updateA, lookupA]
  | cons p rest ih =>
    by_cases h : p.1 = k
    · simp [updateA, lookupA, h]
    · simp [updateA, lookupA, h, ih]

theorem get_down_eq_none_iff (t : FractalTreeNode) (L : ℕ) :
    ∀ k : ℕ, (t.get_down L k = none ↔ ∀ j < k, lookupA t.absolute_values j = none) := by
  intro k
  induction k with
  | zero => simp [FractalTreeNode.get_down]
  | succ k ih =>
    cases hab : lookupA t.absolute_values k with
    | some v =>
      simp only [FractalTreeNode.get_down, hab]
      constructor
      · intro h; exact absurd h (by simp)
      · intro h; exact absurd (h k (Nat.lt_succ_self k)) (by simp [hab])
    | none =>
      simp only [FractalTreeNode.get_down, hab]
      rw [ih]
      constructor
      · intro h j hj
        rcases Nat.lt_succ_iff_lt_or_eq.mp hj with hj' | hj'
        · exact h j hj'
        · subst hj'; exact hab
      · intro h j hj; exact h j (Nat.lt_succ_of_lt hj)

theorem get_eq_none_iff (t : FractalTreeNode) (l : ℕ) :
    t.get l = none ↔
      ∀ k ≤ (if l > t.max_depth then t.max_depth else l),
        lookupA t.absolute_values k = none := by
  unfold FractalTreeNode.get
  set L := if l > t.max_depth then t.max_depth else l with hL
  cases hab : lookupA t.absolute_values L with
  | some v =>
    simp only [hab]
    constructor
    · intro h; exact absurd h (by simp)
    · intro h; exact absurd (h L le_rfl) (by simp [hab])
  | none =>
    simp only [hab]
    rw [get_down_eq_none_iff]
    constructor
    · intro h k hk
      rcases Nat.lt_or_ge k L with hk' | hk'
      · exact h k hk'
      · have : k = L := le_antisymm hk hk'
        subst this; exact hab
    · intro h j hj; exact h j (le_of_lt hj)

theorem foldl_mergeStep (us : List (ℚ × ℚ)) :
    ∀ m W : ℚ, 0 < W → (∀ u ∈ us, 0 < u.2) →
      us.foldl FractalTreeNode.mergeStep (m, W) =
        ((m * W + (us.map fun u => u.1 * u.2).sum) / (W + (us.map (·.2)).sum),
          W + (us.map (·.2)).sum) := by
  induction us with
  | nil =>
    intro m W hW _
    simp [mul_div_assoc, mul_div_cancel_right₀ _ (ne_of_gt hW)]
  | cons u rest ih =>
    intro m W hW hpos
    have hu : 0 < u.2 := hpos u (by simp)
    have hW' : 0 < W + u.2 := by positivity
    have hrest : ∀ x ∈ rest, 0 < x.2 := fun x hx => hpos x (by simp [hx])
    simp only [List.foldl_cons, FractalTreeNode.mergeStep]
    rw [ih _ _ hW' hrest]
    have hcancel : (m * W + u.1 * u.2) / (W + u.2) * (W + u.2) = m * W + u.1 * u.2 :=
      div_mul_cancel₀ _ (ne_of_gt hW')
    simp only [List.map_cons, List.sum_cons, hcancel]
    rw [add_assoc, add_assoc]

/-! ## Claim theorems -/

/-- C1: on the acyclic edge set `{a→b, b→c}` the edge `c→a` must be
rejected — its head `a` reaches its tail `c` — yet `has_cycle` (which
searches only for a pre-existing cycle from `e.to` and never for
`e.from`) reports false, `add_edge` inserts the edge, and the edge
relation becomes cyclic. -/
theorem C1_add_edge_accepts_cycle_creating_edge :
    reachable gC1.edges "a" "c" = true ∧
    gC1.has_cycle ("c", "a") = false ∧
    (gC1.add_edge ("c", "a")).2 = true ∧
    (gC1.add_edge ("c", "a")).1.edges = [("a", "b"), ("b", "c"), ("c", "a")] ∧
    reachable (gC1.add_edge ("c", "a")).1.edges "a" "a" = true :=
  ⟨rfl, rfl, rfl, rfl, rfl⟩

/-- C2 counterexample: on the scenario `max_depth=4`, `threshold=0.1`,
`store(1.0,0); store(1.01,1); store(1.5,2); merge_all()`, the call
`get(1)` does not return none — level 1 was collapsed into level 0 and
`get` serves the level-0 value expanded, namely `1.0`. -/
theorem C2_get1_not_none :
    tC2.get 1 = some 1 ∧ tC2.get 1 ≠ none := by
  have h : tC2.get 1 = some 1 := by
    have h1 : |(1:ℚ)/100| = 1/100 := abs_of_nonneg (by norm_num)
    have h2 : |(49:ℚ)/100| = 49/100 := abs_of_nonneg (by norm_num)
    norm_num [h1, h2, tC2, FractalTreeNode.store, FractalTreeNode.merge_all,
      FractalTreeNode.merge_level, FractalTreeNode.mergeStep, FractalTreeNode.compress_tree,
      FractalTreeNode.get, FractalTreeNode.get_down, FractalTreeNode.expand_value,
      FractalTreeNode.cround, FractalTreeNode.difference, FractalTreeNode.merge_threshold,
      lookupA, updateA, List.filter_cons, List.filter_nil]
  exact ⟨h, by rw [h]; exact fun hc => Option.noConfusion hc⟩

/-- C2 (amended): after the scenario, `get(1) = Some 1.0` (the level-0
value expanded upward) and `get(2) = 1.5`; in general `get(level)`
returns none exactly when neither the clamped level nor any lower level
holds an absolute value. -/
theorem C2_get_after_merge :
    tC2.get 1 = some 1 ∧ tC2.get 2 = some (3/2) ∧
    ∀ (t : FractalTreeNode) (l : ℕ),
      (t.get l = none ↔
        ∀ k ≤ (if l > t.max_depth then t.max_depth else l),
          lookupA t.absolute_values k = none) := by
  refine ⟨?_, ?_, get_eq_none_iff⟩ <;>
  · have h1 : |(1:ℚ)/100| = 1/100 := abs_of_nonneg (by norm_num)
    have h2 : |(49:ℚ)/100| = 49/100 := abs_of_nonneg (by norm_num)
    norm_num [h1, h2, tC2, FractalTreeNode.store, FractalTreeNode.merge_all,
      FractalTreeNode.merge_level, FractalTreeNode.mergeStep, FractalTreeNode.compress_tree,
      FractalTreeNode.get, FractalTreeNode.get_down, FractalTreeNode.expand_value,
      FractalTreeNode.cround, FractalTreeNode.difference, FractalTreeNode.merge_threshold,
      lookupA, updateA, List.filter_cons, List.filter_nil]

/-- C2 witness: a store holding no absolute value at any level serves
`get(3)` as none. -/
theorem C2_get_after_merge_witness :
    ({ max_depth := 4, compression_threshold := 1/10 } : FractalTreeNode).get 3 = none :=
  (C2_get_after_merge.2.2 _ 3).mpr (fun _ _ => rfl)

/-- C3 counterexample: when `compute_impl` produces an error, `compute`
resolves with that error but fires no completion callback, so the
internal callback registered by `add_node` never writes the error into
the graph's error table. -/
theorem C3_error_fires_no_callback :
    oC3.result.hasError = true ∧ oC3.fired = none ∧
    fireCallbacks oC3.fired [] = [] :=
  ⟨rfl, rfl, rfl⟩

/-- C3 (amended): completion callbacks are invoked exactly on the path
where `compute_impl` produced a fresh value — each callback receives
the successful `ComputeResult`; whenever `compute` resolves with an
error, no callback fires and the error table is untouched by the
callbacks. -/
theorem C3_callbacks_only_on_fresh_success :
    ∀ (st : NodeState) (parentErr : Option ErrorState) (impl : ℕ → CResult) (level : ℕ),
      ((Node.compute st parentErr impl level).result.hasError = true →
        (Node.compute st parentErr impl level).fired = none ∧
        ∀ tbl, fireCallbacks (Node.compute st parentErr impl level).fired tbl = tbl) ∧
      (∀ v : ℚ, parentErr = none → ¬ level > st.max_precision_level →
        st.value_storage.get level = none → impl level = .val v →
        (Node.compute st parentErr impl level).fired = some (.val v) ∧
        (Node.compute st parentErr impl level).result = .val v) := by
  intro st parentErr impl level
  have hfired : (Node.compute st parentErr impl level).result.hasError = true →
      (Node.compute st parentErr impl level).fired = none := by
    cases parentErr with
    | some e => intro _; rfl
    | none =>
      by_cases hlev : level > st.max_precision_level
      · intro _; simp only [Node.compute, if_pos hlev]
      · simp only [Node.compute, if_neg hlev]
        cases hget : ({ st with current_precision_level := level } : NodeState).value_storage.get level with
        | some c => simp [CResult.hasError]
        | none =>
          cases himp : impl level with
          | err e => intro _; rfl
          | val v => simp [CResult.hasError]
  constructor
  · intro herr
    refine ⟨hfired herr, fun tbl => ?_⟩
    rw [hfired herr]
    rfl
  · intro v hp hlev hget himp
    subst hp
    have hget2 : ({ st with current_precision_level := level } : NodeState).value_storage.get level = none := hget
    constructor
    · show (Node.compute st none impl level).fired = some (.val v)
      simp [Node.compute, if_neg hlev, hget2, himp]
    · show (Node.compute st none impl level).result = .val v
      simp [Node.compute, if_neg hlev, hget2, himp]

/-- C3 witness: a fresh node whose `compute_impl` yields `5` fires its
callbacks with the successful result. -/
theorem C3_callbacks_witness :
    (Node.compute (mkNode "m") none (fun _ => CResult.val 5) 0).fired =
      some (CResult.val 5) :=
  ((C3_callbacks_only_on_fresh_success (mkNode "m") none (fun _ => CResult.val 5) 0).2
    5 rfl (by decide) (by decide) rfl).1

/-- C4 counterexample: the error-table `Graph::execute` does not run the
registered optimization passes: with one registered pass that adds a
node `x`, `execute` leaves the node set unchanged (while `optimize()`
would apply the pass). -/
theorem C4_execute_skips_passes :
    (GraphE.executeE implsOk gC4).nodes = ["a"] ∧
    (GraphE.optimizeE gC4).nodes = ["a", "x"] ∧
    (GraphE.executeE implsOk { gC4 with
        node_errors := [("a", { type := .ComputationError, message := "old" })] }).node_errors = [] :=
  ⟨rfl, rfl, rfl⟩

/-- C4 (amended): the error table is cleared at the start of each
`execute`, before any node is scheduled — the result of `execute` is
independent of the prior error table — and `execute` leaves the
registered pass list untouched. -/
theorem C4_execute_clears_error_table :
    ∀ (impls : String → CResult) (g : GraphE)
      (e₁ e₂ : List (String × ErrorState)),
      GraphE.executeE impls { g with node_errors := e₁ } =
        GraphE.executeE impls { g with node_errors := e₂ } ∧
      (GraphE.executeE impls g).passes = g.passes := by
  intro impls g e₁ e₂
  cases g
  exact ⟨rfl, rfl⟩

/-- C5 counterexample: on a default node (window `[0, 8]`, current
level 0), `adjust_precision(9)` leaves `current_level` at 0 instead of
clamping it to `max_level = 8`. -/
theorem C5_adjust_precision_does_not_clamp :
    (adjustPrecision (mkNode "n") 9).current_precision_level = 0 ∧
    (mkNode "n").max_precision_level = 8 :=
  ⟨rfl, rfl⟩

/-- C5 (amended): `adjust_precision(target)` sets `current_level` to
`target` exactly when `target` lies within `[min_level, max_level]`;
an out-of-range target leaves the node unchanged (no clamping). -/
theorem C5_adjust_precision_in_range_only :
    ∀ (st : NodeState) (target : ℕ),
      (st.min_precision_level ≤ target ∧ target ≤ st.max_precision_level →
        adjustPrecision st target = { st with current_precision_level := target }) ∧
      (¬ (st.min_precision_level ≤ target ∧ target ≤ st.max_precision_level) →
        adjustPrecision st target = st) := by
  intro st target
  constructor
  · intro h
    simp only [adjustPrecision, ge_iff_le]
    rw [if_pos h]
  · intro h
    simp only [adjustPrecision, ge_iff_le]
    rw [if_neg h]

/-- C5 witness: an in-range target is adopted as the current level. -/
theorem C5_adjust_precision_witness :
    adjustPrecision (mkNode "n") 3 =
      { mkNode "n" with current_precision_level := 3 } :=
  (C5_adjust_precision_in_range_only (mkNode "n") 3).1 (by decide)

/-- C6: a requested level strictly above the node's `max_level` makes
`compute` resolve with a `Precision` error whose source is the node
itself, with the node state — its fractal store included — unchanged,
`compute_impl` not invoked, and no callback fired. -/
theorem C6_precision_error_level_too_high :
    ∀ (st : NodeState) (impl : ℕ → CResult) (level : ℕ),
      level > st.max_precision_level →
      Node.compute st none impl level =
        ⟨.err { type := .PrecisionError,
                message := "Requested precision level exceeds maximum supported level",
                source_node := some st.name }, st, false, none⟩ := by
  intro st impl level h
  simp only [Node.compute, if_pos h, precisionError]

/-- C6 witness: after `set_precision_range(2, 6)`, `compute(8)` yields
the `Precision` error with source `n` and leaves the node unchanged. -/
theorem C6_precision_error_witness :
    Node.compute nodeC6 none (fun _ => CResult.val 0) 8 =
      ⟨.err { type := .PrecisionError,
              message := "Requested precision level exceeds maximum supported level",
              source_node := some "n" }, nodeC6, false, none⟩ :=
  C6_precision_error_level_too_high nodeC6 (fun _ => CResult.val 0) 8 (by decide)

/-- C7: the LRU scenario — capacity 2; insert 1, insert 2, access 1,
insert 3 — leaves the cache holding exactly `{1, 3}` (2 was evicted);
in general `on_access` moves a present element to the front of the
recency list (a permutation of it) and `select_victim` removes and
returns the back. -/
theorem C7_lru_policy :
    cacheC7 = some { cache := [1, 3], policy := { capacity := 2, access_list := [3, 1] } } ∧
    (∀ (s : LRUState ℤ) (v : ℤ), v ∈ s.access_list →
      (s.on_access v).access_list = v :: s.access_list.erase v ∧
      (s.on_access v).access_list.Perm s.access_list) ∧
    (∀ (s : LRUState ℤ) (h : s.access_list ≠ []),
      s.select_victim =
        some (s.access_list.getLast h, { s with access_list := s.access_list.dropLast })) := by
  refine ⟨rfl, ?_, ?_⟩
  · intro s v hv
    constructor
    · simp [LRUState.on_access, hv]
    · simp only [LRUState.on_access, if_pos hv]
      exact (List.perm_cons_erase hv).symm
  · intro s h
    simp [LRUState.select_victim, List.getLast?_eq_getLast s.access_list h]

/-- C7 witness: accessing the value 7 in recency list `[5, 7]` moves it
to the front. -/
theorem C7_lru_policy_witness :
    (LRUState.on_access ({ capacity := 2, access_list := [5, 7] } : LRUState ℤ) 7).access_list
      = [7, 5] :=
  ((C7_lru_policy.2.1 _ 7 (by decide)).1).trans (by decide)

/-- C8: on the graph `p1→n1, p2→n1, n1→n2` — which satisfies invariant
I2 — `NodeFusion::optimize` fuses the chain `n1→n2`, adds edges from
`p1` and `p2` to the fused node, and removes `n1` and `n2`, but never
adds the fused node to the node set: the new edges reference a node
that is not a member, violating I2. -/
theorem C8_fused_node_not_in_node_set :
    (∀ e ∈ gC8.edges, e.1 ∈ gC8.nodes ∧ e.2 ∈ gC8.nodes) ∧
    (gC8.node_fusion_optimize).nodes = ["p1", "p2"] ∧
    ("p1", GraphState.fused_node_name) ∈ (gC8.node_fusion_optimize).edges ∧
    GraphState.fused_node_name ∉ (gC8.node_fusion_optimize).nodes := by
  refine ⟨by decide, rfl, by decide, by decide⟩

/-- C9: on a non-empty pending list with positive weights,
`merge_level(L)` computes the weighted mean `μ = Σ wᵢvᵢ / Σ wᵢ` of the
pending entries (its incremental fold equals the closed form), assigns
`absolute[L] = μ` when no absolute value exists and otherwise
`absolute[L] ← 0.7·absolute[L] + 0.3·μ`, and clears `pending[L]`. -/
theorem C9_merge_level_weighted_mean :
    ∀ (t : FractalTreeNode) (level : ℕ) (us : List (ℚ × ℚ)),
      lookupA t.pending_updates level = some us →
      us ≠ [] →
      (∀ u ∈ us, 0 < u.2) →
      lookupA (t.merge_level level).pending_updates level = some [] ∧
      lookupA (t.merge_level level).absolute_values level =
        some (match lookupA t.absolute_values level with
              | some a => a * (7/10) + weightedMean us * (3/10)
              | none => weightedMean us) := by
  intro t level us hpend hne hpos
  cases us with
  | nil => exact absurd rfl hne
  | cons u0 rest =>
    have hu0 : 0 < u0.2 := hpos u0 (by simp)
    have hrest : ∀ x ∈ rest, 0 < x.2 := fun x hx => hpos x (by simp [hx])
    have hfold := foldl_mergeStep rest u0.1 u0.2 hu0 hrest
    have hmean : (rest.foldl FractalTreeNode.mergeStep (u0.1, u0.2)).1 =
        weightedMean (u0 :: rest) := by
      rw [hfold]
      simp [weightedMean, List.map_cons, List.sum_cons]
    unfold FractalTreeNode.merge_level
    rw [hpend]
    simp only [hmean]
    cases hab : lookupA t.absolute_values level with
    | some a =>
      simp only [hab]
      exact ⟨lookupA_updateA_self _ _ _, lookupA_updateA_self _ _ _⟩
    | none =>
      simp only [hab]
      exact ⟨lookupA_updateA_self _ _ _, lookupA_updateA_self _ _ _⟩

/-- C9 witness: merging the pending list `[(1,1), (2,1)]` at level 0 of
a store with no absolute value there yields `absolute[0] = 3/2`. -/
theorem C9_merge_level_witness :
    lookupA ((tC9.merge_level 0).absolute_values) 0 = some (3/2) :=
  ((C9_merge_level_weighted_mean tC9 0 [(1, 1), (2, 1)] rfl (by decide)
      (by decide)).2).trans (by norm_num [weightedMean, tC9, lookupA])

/-- C10: when `compute(level)` finds a value in the fractal store (and
the level is legal, with no pending graph error), it resolves with that
value and the only state change is `current_level := level`: the store,
the computation counter and everything else are unchanged,
`compute_impl` is not invoked, and no callback fires. -/
theorem C10_store_hit_frame :
    ∀ (st : NodeState) (impl : ℕ → CResult) (level : ℕ) (v : ℚ),
      ¬ level > st.max_precision_level →
      st.value_storage.get level = some v →
      Node.compute st none impl level =
        ⟨.val v, { st with current_precision_level := level }, false, none⟩ := by
  intro st impl level v hlev hget
  have hget2 : ({ st with current_precision_level := level } : NodeState).value_storage.get level = some v := hget
  simp only [Node.compute, if_neg hlev, hget2]

/-- C10 witness: a node holding `5` at level 0 serves `compute(0)` from
the store with no other state change. -/
theorem C10_store_hit_witness :
    Node.compute nodeC10 none (fun _ => CResult.val 9) 0 =
      ⟨.val 5, { nodeC10 with current_precision_level := 0 }, false, none⟩ :=
  C10_store_hit_frame nodeC10 (fun _ => CResult.val 9) 0 5 (by decide) (by decide)

end FlowGraph

